import Mathlib

/-!
Verification of the dashboard metrics-aggregation engine of the tks-api
repository (Go package `usecase`, file `dashboard.go` in `src/unnamed/part_000`),
against its natural-language specification.

The Go code is shallowly embedded: Go `int` becomes `Int`, Go floating-point
values become exact fractions (`Frac`, an unnormalized `Int` pair — the
concrete values exercised here are exactly representable, so `float32`/`float64`
rounding never shows), Go strings become `String` compared bytewise (all
strings involved are ASCII, where Go's bytewise order coincides with
codepoint order), and fallible operations return `Option`/`Except`.
-/

namespace Tks

/-! ## Decimal digits and numeric rendering

Models the decimal rendering done by Go's `strconv.Itoa` / `fmt.Sprintf("%d")`
and the zero-padded fields of `Time.Format("2006-01-02")`. -/

/-- The decimal digit character for `k ≤ 9` (an arbitrary placeholder above). -/
def digitChar (k : Nat) : Char :=
  match k with
  | 0 => '0' | 1 => '1' | 2 => '2' | 3 => '3' | 4 => '4'
  | 5 => '5' | 6 => '6' | 7 => '7' | 8 => '8' | 9 => '9'
  | _ => '*'

/-- True when `c` is an ASCII decimal digit. -/
def isDigit (c : Char) : Bool := 48 ≤ c.val.toNat && c.val.toNat ≤ 57

/-- Numeric value of a digit list, most significant first (used to model
`strconv.Atoi` / `strconv.ParseFloat` on their digit runs). -/
def digitsVal (l : List Char) : Nat :=
  l.foldl (fun a c => 10 * a + (c.val.toNat - 48)) 0

/-- Decimal digits, most significant first, no padding; structural recursion
on a fuel argument (`n + 1` steps always suffice) keeps it kernel-reducible. -/
def natDigitsAux : Nat → Nat → List Char
  | 0, _ => []
  | fuel + 1, n =>
    if n < 10 then [digitChar n]
    else natDigitsAux fuel (n / 10) ++ [digitChar (n % 10)]

/-- Decimal digits of `n`, most significant first
(models `strconv.Itoa` on a natural number). -/
def natDigits (n : Nat) : List Char := natDigitsAux (n + 1) n

/-- Decimal string of a natural number (models `strconv.Itoa` / `%d`). -/
def natStr (n : Nat) : String := ⟨natDigits n⟩

/-- Decimal string of an integer (models `strconv.Itoa` / `%d`). -/
def intStr (i : Int) : String :=
  if i < 0 then "-" ++ natStr i.natAbs else natStr i.natAbs

/-- Renders `n` zero-padded to exactly `k` decimal digits (requires `n < 10^k`
to be meaningful); models the fixed-width fields of Go's date formatting. -/
def padNum (k : Nat) (n : Nat) : List Char :=
  match k with
  | 0 => []
  | k + 1 => digitChar (n / 10 ^ k) :: padNum k (n % 10 ^ k)

/-! ## Bytewise string comparison

Go compares strings bytewise; on ASCII data that is exactly lexicographic
comparison of the codepoints. -/

/-- Lexicographic comparison of character lists by codepoint. -/
def charsCmp : List Char → List Char → Ordering
  | [], [] => .eq
  | [], _ :: _ => .lt
  | _ :: _, [] => .gt
  | a :: as, b :: bs =>
    if a.val.toNat < b.val.toNat then .lt
    else if b.val.toNat < a.val.toNat then .gt
    else charsCmp as bs

/-- Go's `a <= b` on strings (bytewise lexicographic order). -/
def goStrLe (a b : String) : Bool :=
  match charsCmp a.data b.data with
  | .gt => false
  | _ => true

/-! ## Exact fractions standing in for Go floating point

All float arithmetic in the dashboard code (`float32(free)/float32(machine)`,
`y*100`, …) is modelled exactly; an unnormalized pair keeps every operation a
plain `Int` computation. The invariant `0 < den` is maintained by
construction. -/

structure Frac where
  num : Int
  den : Int
deriving DecidableEq, Repr

/-- Embed an integer. -/
def Frac.ofInt (n : Int) : Frac := ⟨n, 1⟩

/-- Exact product. -/
def Frac.mul (a b : Frac) : Frac := ⟨a.num * b.num, a.den * b.den⟩

/-- Exact difference. -/
def Frac.sub (a b : Frac) : Frac := ⟨a.num * b.den - b.num * a.den, a.den * b.den⟩

/-- Exact quotient, keeping the denominator positive. -/
def Frac.div (a b : Frac) : Frac :=
  if b.num < 0 then ⟨-(a.num * b.den), -(a.den * b.num)⟩
  else ⟨a.num * b.den, a.den * b.num⟩

/-- Round to the nearest integer, halves away from zero (the rounding Go's
`fmt` applies to a value that is exactly representable). `⌊·⌋` on a
nonnegative fraction with positive denominator is plain integer division. -/
def Frac.roundHalfAway (a : Frac) : Int :=
  if a.num < 0 then -((2 * (-a.num) + a.den) / (2 * a.den))
  else (2 * a.num + a.den) / (2 * a.den)

/-- Fixed-point rendering of `fmt.Sprintf` with `prec` fractional digits:
`"%0.2f"` is `fmtFixed 2`, the default `"%f"` is `fmtFixed 6`. -/
def fmtFixed (prec : Nat) (a : Frac) : String :=
  let scaled : Int := (a.mul (Frac.ofInt (10 ^ prec))).roundHalfAway
  let n := scaled.natAbs
  (if scaled < 0 then "-" else "") ++ natStr (n / 10 ^ prec) ++ "." ++ ⟨padNum prec (n % 10 ^ prec)⟩

/-! ## String-to-number parsing (models `strconv`)

`strconv.Atoi` and `strconv.ParseFloat` restricted to plain decimal inputs
(optional sign, digit run, optional fractional part); the exotic float forms
(exponents, `Inf`, hex) never occur in the data these claims exercise. -/

/-- Models `strconv.Atoi`: optional sign followed by a nonempty digit run. -/
def atoi? (s : String) : Option Int :=
  let core : List Char → Option Nat := fun l =>
    if l.isEmpty then none
    else if l.all isDigit then some (digitsVal l) else none
  match s.data with
  | '-' :: r => (core r).map (fun n => -(n : Int))
  | '+' :: r => (core r).map (fun n => (n : Int))
  | r => (core r).map (fun n => (n : Int))

/-- Models `strconv.ParseFloat` on plain decimal notation: optional sign,
then digits, optionally a point and more digits, with at least one digit. -/
def parseFrac? (s : String) : Option Frac :=
  let core : List Char → Option Frac := fun l =>
    let ip := l.takeWhile isDigit
    let rest := l.dropWhile isDigit
    match rest with
    | [] => if ip.isEmpty then none else some (Frac.ofInt (digitsVal ip))
    | '.' :: fp =>
      if fp.all isDigit && !(ip.isEmpty && fp.isEmpty) then
        some ⟨(digitsVal ip : Int) * 10 ^ fp.length + digitsVal fp, (10 : Int) ^ fp.length⟩
      else none
    | _ => none
  match s.data with
  | '-' :: r => (core r).map (fun f => ⟨-f.num, f.den⟩)
  | '+' :: r => core r
  | r => core r

/-! ## SeriesAligner cell extraction — `getChartYValue`

Embeds `DashboardUsecase.getChartYValue` (dashboard.go:571-586).  A range
sample is a `(timestamp, value)` pair; the raw float timestamp is rounded
with `math.Round` (half away from zero) before comparison, exactly as the
Go loop does on each iteration. -/

/-- Computes `int(math.Round(x))` on a raw float timestamp. -/
def goRound (t : Frac) : Int := t.roundHalfAway

/-- Embeds `getChartYValue(values, xData, percentage)`: walks the samples in order;
each iteration rounds the timestamp, parses the value (returning `""` on the
first parse failure), and on the first timestamp match emits the value,
scaled by 100 if `percentage`, rendered with `"%f"`. -/
def getChartYValue (values : List (Frac × String)) (xData : String) (percentage : Bool) : String :=
  match values with
  | [] => ""
  | (t, v) :: rest =>
    match parseFrac? v with
    | none => ""
    | some y =>
      if intStr (goRound t) = xData then
        fmtFixed 6 (if percentage then y.mul (Frac.ofInt 100) else y)
      else getChartYValue rest xData percentage

/-! ## Stack summaries — `GetStacks`

`domain.DashboardStack` and `domain.StackStatus` live in the `domain`
package, which is outside the provided sources; only the fields the
dashboard code reads are modelled.  Modelled from the spec: a stack summary
carries a status string and the three utilization strings, and
`StackStatus_RUNNING.String()` is a fixed status constant (its exact text is
immaterial to every claim, which speak of "the running status"). -/

def statusRunning : String := "RUNNING"

structure DashboardStack where
  name : String
  status : String
  cpu : String
  memory : String
  storage : String
deriving DecidableEq, Repr

/-- The comparison closure passed to `sort.Slice` in `GetStacks`
(dashboard.go:129-131): `out[i].Status == StackStatus_RUNNING.String()` —
it reads only its first argument. -/
def stacksLess (x : DashboardStack) (_y : DashboardStack) : Bool :=
  x.status == statusRunning

/-- The inner loop of Go's stdlib insertion sort
(`for j := i; j > a && data.Less(j, j-1); j-- { data.Swap(j, j-1) }`),
viewed on the reversed sorted prefix: the new element `e` keeps swapping
past its left neighbour `p` while `less e p`. -/
def goBubble (less : α → α → Bool) (e : α) : List α → List α
  | [] => [e]
  | p :: ps => if less e p then p :: goBubble less e ps else e :: p :: ps

/-- Go's stdlib insertion sort (both the pre-1.19 quicksort and the current
pdqsort dispatch to it for slices shorter than 12 elements, which is the
regime `sort.Slice` runs in for the claims at hand), processing elements
left to right over a reversed sorted prefix. -/
def goSortSlice (less : α → α → Bool) (l : List α) : List α :=
  (l.foldl (fun acc e => goBubble less e acc) []).reverse

/-- The `sort.Slice(out, …)` call at the end of `GetStacks`. -/
def getStacksSort (l : List DashboardStack) : List DashboardStack :=
  goSortSlice stacksLess l

/-! ## Utilization joins — `getStackMemoryDisk`, `getStackCpu`

`thanos.MetricDataResult` comes from the thanos client package (outside the
provided sources); the dashboard code reads `Metric.Name`,
`Metric.TacoCluster` and `Value[1]` (the string-encoded sample value). -/

structure MetricDataResult where
  name : String
  tacoCluster : String
  value : String
deriving DecidableEq, Repr

/-- One iteration of the `getStackMemoryDisk` loop (dashboard.go:595-609):
for a sample of the matching cluster, the accumulator named by the sample's
metric is overwritten with `strconv.Atoi` of the value (`0` on parse error,
since Go's `v, _ = strconv.Atoi(s)` assigns the zero result). -/
def msdStep (clusterId : String) (acc : Int × Int × Int × Int) (val : MetricDataResult) :
    Int × Int × Int × Int :=
  if val.tacoCluster == clusterId then
    let (free, machine, used, capacity) := acc
    let fm :=
      if val.name == "node_memory_MemFree_bytes" then ((atoi? val.value).getD 0, machine)
      else if val.name == "machine_memory_bytes" then (free, (atoi? val.value).getD 0)
      else (free, machine)
    let uc :=
      if val.name == "kubelet_volume_stats_used_bytes" then ((atoi? val.value).getD 0, capacity)
      else if val.name == "kubelet_volume_stats_capacity_bytes" then (used, (atoi? val.value).getD 0)
      else (used, capacity)
    (fm.1, fm.2, uc.1, uc.2)
  else acc

/-- Embeds `getStackMemoryDisk(result, clusterId)` (dashboard.go:588-622): scans all
samples accumulating `free`, `machine`, `used`, `capacity`, then renders
`(1 - free/machine)*100` and `(used/capacity)*100` as `"%0.2f"` strings,
each guarded by a positive denominator (empty string otherwise). -/
def getStackMemoryDisk (result : List MetricDataResult) (clusterId : String) : String × String :=
  let acc := result.foldl (msdStep clusterId) (0, 0, 0, 0)
  let free := acc.1
  let machine := acc.2.1
  let used := acc.2.2.1
  let capacity := acc.2.2.2
  let memory :=
    if machine > 0 then
      fmtFixed 2 (((Frac.ofInt 1).sub ((Frac.ofInt free).div (Frac.ofInt machine))).mul (Frac.ofInt 100))
    else ""
  let disk :=
    if capacity > 0 then
      fmtFixed 2 (((Frac.ofInt used).div (Frac.ofInt capacity)).mul (Frac.ofInt 100))
    else ""
  (memory, disk)

/-- Embeds `getStackCpu(result, clusterId)` (dashboard.go:624-635): returns at the
first sample of the matching cluster, rendering its value as `"%0.2f"` when
it parses and the empty string when it does not. -/
def getStackCpu (result : List MetricDataResult) (clusterId : String) : String :=
  match result with
  | [] => ""
  | val :: rest =>
    if val.tacoCluster == clusterId then
      match parseFrac? val.value with
      | some s => fmtFixed 2 s
      | none => ""
    else getStackCpu rest clusterId

/-- The per-cluster body of `GetStacks` (dashboard.go:109-124): run the two
joins, then suffix each non-empty utilization value with `" %"`. -/
def stackUtilizationFields (memDisk cpuRes : List MetricDataResult) (clusterId : String) :
    String × String × String :=
  let md := getStackMemoryDisk memDisk clusterId
  let cpu := getStackCpu cpuRes clusterId
  let cpu := if cpu != "" then cpu ++ " %" else cpu
  let memory := if md.1 != "" then md.1 ++ " %" else md.1
  let disk := if md.2 != "" then md.2 ++ " %" else md.2
  (cpu, memory, disk)

/-! ## Organization-wide totals — `GetResources` (dashboard.go:167-217) -/

/-- One iteration of the CPU summation loop: `strconv.Atoi` the sample,
`continue` on parse error, add the value only when it is positive. -/
def cpuStep (acc : Int) (v : String) : Int :=
  match atoi? v with
  | none => acc
  | some n => if n > 0 then acc + n else acc

/-- The CPU summation loop of `GetResources`. -/
def sumCpu (values : List String) : Int := values.foldl cpuStep 0

/-- One iteration of the memory/storage summation loops: as `cpuStep`, but a
positive per-cluster byte count is divided by `1024` three times (integer
division) before being added. -/
def gbStep (acc : Int) (v : String) : Int :=
  match atoi? v with
  | none => acc
  | some n => if n > 0 then acc + n / 1024 / 1024 / 1024 else acc

/-- The memory/storage summation loops of `GetResources`. -/
def sumGB (values : List String) : Int := values.foldl gbStep 0

/-! ## UTC calendar dates

Models the slice of Go's `time` package the pod-restart calendar uses:
`time.Date(y, m, d, 0, 0, 0, 0, time.UTC)`, `.AddDate(0, 0, 1)`, `.Unix()`
and `.Format("2006-01-02")`, all in the proleptic Gregorian calendar. -/

structure Date where
  year : Nat
  month : Nat
  day : Nat
deriving DecidableEq, Repr

/-- Gregorian leap year. -/
def isLeap (y : Nat) : Bool := (y % 4 == 0 && y % 100 != 0) || y % 400 == 0

/-- Length of month `m` of year `y` (for `1 ≤ m ≤ 12`). -/
def daysInMonth (y m : Nat) : Nat :=
  if m = 2 then (if isLeap y then 29 else 28)
  else if m = 4 ∨ m = 6 ∨ m = 9 ∨ m = 11 then 30
  else 31

/-- A well-formed calendar date. -/
def validDate (d : Date) : Prop :=
  1 ≤ d.month ∧ d.month ≤ 12 ∧ 1 ≤ d.day ∧ d.day ≤ daysInMonth d.year d.month

instance (d : Date) : Decidable (validDate d) := by unfold validDate; infer_instance

/-- The day after `d` (Go's `AddDate(0, 0, 1)` on a valid date). -/
def nextDay (d : Date) : Date :=
  if d.day < daysInMonth d.year d.month then ⟨d.year, d.month, d.day + 1⟩
  else if d.month < 12 then ⟨d.year, d.month + 1, 1⟩
  else ⟨d.year + 1, 1, 1⟩

/-- The date `n` days after `d`. -/
def addDays (d : Date) : Nat → Date
  | 0 => d
  | n + 1 => nextDay (addDays d n)

/-- Days in year `y` before the first of month `m` (`1 ≤ m ≤ 12`). -/
def daysBeforeMonth (y m : Nat) : Nat :=
  let leapAdj := if isLeap y then 1 else 0
  match m with
  | 2 => 31 | 3 => 59 + leapAdj | 4 => 90 + leapAdj | 5 => 120 + leapAdj
  | 6 => 151 + leapAdj | 7 => 181 + leapAdj | 8 => 212 + leapAdj | 9 => 243 + leapAdj
  | 10 => 273 + leapAdj | 11 => 304 + leapAdj | 12 => 334 + leapAdj
  | _ => 0

/-- Days strictly before January 1 of year `y`, counted from January 1 of
year 1 of the proleptic Gregorian calendar. -/
def daysBeforeYear (y : Nat) : Nat :=
  365 * (y - 1) + (y - 1) / 4 + (y - 1) / 400 - (y - 1) / 100

/-- Absolute day number of a date (day 0 = January 1 of year 1). -/
def toDayNumber (d : Date) : Nat :=
  daysBeforeYear d.year + daysBeforeMonth d.year d.month + (d.day - 1)

/-- Day number of the Unix epoch, `toDayNumber ⟨1970, 1, 1⟩`. -/
def epochDay : Nat := 719162

/-- Computes `time.Unix()` of a date's UTC midnight. -/
def unixMidnight (d : Date) : Int := 86400 * ((toDayNumber d : Int) - (epochDay : Int))

/-- Renders `Format("2006-01-02")` of a date. -/
def dateStr (d : Date) : String :=
  ⟨padNum 4 d.year ++ '-' :: padNum 2 d.month ++ '-' :: padNum 2 d.day⟩

/-! ## The pod-restart calendar — the `ChartType_POD_CALENDAR` branch of
`getChartFromPrometheus` (dashboard.go:371-421) plus `rangeDate`
(dashboard.go:654-668). -/

/-- The `rangeDate(start, end)` generator, rendered as the list it yields:
both bounds are truncated to UTC midnight (our `Date` already is one) and
days are produced while `start` has not moved past `end`. -/
def rangeDateList (s e : Date) : List Date :=
  if toDayNumber e < toDayNumber s then []
  else (List.range (toDayNumber e - toDayNumber s + 1)).map (fun i => addDays s i)

/-- One bucket's count cell: empty for a day after "today", otherwise the
decimal rendering of how many alerts were created on that day (the Go loop
compares `Format("2006-01-02")` strings with `<=` and `==`). -/
def calendarCell (nowDate : Date) (alerts : List Date) (d : Date) : String :=
  let baseDate := dateStr d
  if goStrLe baseDate (dateStr nowDate) then
    natStr (alerts.filter (fun a => dateStr a == baseDate)).length
  else ""

/-- The pod-restart calendar chart: validates the requested month against
`now`, then buckets the fetched alerts day by day from the first of the
month through 30 days later, inclusive.  Returns the x-axis (each bucket
day's UTC-midnight Unix timestamp, as a string) and the
`"podRestartCount"` series data. -/
def buildPodCalendar (year month : Nat) (nowDate : Date) (alerts : List Date) :
    Except String (List String × List String) :=
  if nowDate.year < year then .error "Invalid year"
  else if nowDate.year = year ∧ nowDate.month < month then .error "Invalid month"
  else
    let startDate : Date := ⟨year, month, 1⟩
    let endDate : Date := addDays startDate 30
    let days := rangeDateList startDate endDate
    let xAxis := days.map (fun d => intStr (unixMidnight d))
    let yAxis := days.map (calendarCell nowDate alerts)
    .ok (xAxis, yAxis)

/-! ## Endpoint resolution — `getThanosUrl` (dashboard.go:527-569)

The cache, organization repository and Kubernetes client are external
collaborators; their responses for one call are captured in an environment
record, and the function also reports whether it went past the cache (the
"performed a registry/cluster lookup" observable of the claims).  A cache
entry present in the list stands for an entry within its TTL window. -/

structure Organization where
  primaryClusterId : String
deriving DecidableEq, Repr

structure K8sService where
  type : String
  ingressHostnames : List String
  ports : List (String × Int)
deriving DecidableEq, Repr

structure ThanosEnv where
  orgResult : Except String Organization
  clientResult : Except String Unit
  primarySvc : Except String K8sService
  fallbackSvc : Except String K8sService
deriving Repr

structure ResolveOut where
  result : Except String String
  cache : List (String × String)
  lookedUp : Bool
deriving Repr

/-- The cache key `"CACHE_KEY_THANOS_URL" + organizationId`. -/
def thanosCacheKey (organizationId : String) : String :=
  "CACHE_KEY_THANOS_URL" ++ organizationId

/-- Embeds `getThanosUrl(organizationId)`: return a cache hit at once; otherwise
look up the organization, require a primary cluster id, get a client for it,
fetch the `thanos-query-frontend` service falling back to `thanos-query`,
require type `LoadBalancer`, and — only when both an ingress hostname and a
port are present — compose `scheme://host:port`, store it in the cache, and
return it.  With no hostname or no port the empty `out` is returned with a
nil error and nothing is cached. -/
def getThanosUrl (env : ThanosEnv) (cache : List (String × String)) (organizationId : String) :
    ResolveOut :=
  let key := thanosCacheKey organizationId
  match cache.lookup key with
  | some v => ⟨.ok v, cache, false⟩
  | none =>
    match env.orgResult with
    | .error e => ⟨.error ("Failed to get organization: " ++ e), cache, true⟩
    | .ok org =>
      if org.primaryClusterId = "" then ⟨.error "Invalid primary clusterId", cache, true⟩
      else
        match env.clientResult with
        | .error e => ⟨.error ("Failed to get client set for user cluster: " ++ e), cache, true⟩
        | .ok _ =>
          match (match env.primarySvc with | .ok s => Except.ok s | .error _ => env.fallbackSvc) with
          | .error _ => ⟨.error "Failed to get services.", cache, true⟩
          | .ok service =>
            if service.type ≠ "LoadBalancer" then
              ⟨.error ("Service type is not LoadBalancer. [" ++ service.type ++ "] "), cache, true⟩
            else
              match service.ingressHostnames, service.ports with
              | host :: _, (scheme, port) :: _ =>
                let out := scheme ++ "://" ++ host ++ ":" ++ intStr port
                ⟨.ok out, (key, out) :: cache, true⟩
              | _, _ => ⟨.ok "", cache, true⟩

/-! ## Derived-shape definitions used by the theorems -/

/-- The last sample of `result` whose cluster label and metric name both
match, rendered through `strconv.Atoi`-with-zero-default; `dflt` when no
sample matches.  This is the value the `getStackMemoryDisk` accumulator
holds after its scan. -/
def lastAtoiMatch (result : List MetricDataResult) (clusterId nm : String) (dflt : Int) : Int :=
  ((result.filter (fun v => v.tacoCluster == clusterId && v.name == nm)).map
    (fun v => (atoi? v.value).getD 0)).getLastD dflt

/-- Strip one leading minus sign. -/
def stripMinus : List Char → List Char
  | '-' :: r => r
  | r => r

/-- The shape `fmt.Sprintf("%0.2f", …)` always produces: an optional minus
sign, at least one integer digit, a point, exactly two fractional digits. -/
def isTwoDecimal (s : String) : Bool :=
  let l := stripMinus s.data
  match l.dropWhile isDigit with
  | ['.', d1, d2] => !(l.takeWhile isDigit).isEmpty && isDigit d1 && isDigit d2
  | _ => false

/-! ## Helper lemmas on digit strings -/

theorem isDigit_digitChar {k : Nat} (h : k < 10) : isDigit (digitChar k) = true := by
  interval_cases k <;> decide

theorem natDigitsAux_all_digits (fuel n : Nat) : ∀ c ∈ natDigitsAux fuel n, isDigit c = true := by
  induction fuel generalizing n with
  | zero => intro c hc; simp [natDigitsAux] at hc
  | succ fuel ih =>
    intro c hc
    rw [natDigitsAux] at hc
    split at hc
    · next h => simp at hc; subst hc; exact isDigit_digitChar h
    · next h =>
      rcases List.mem_append.mp hc with h1 | h2
      · exact ih _ _ h1
      · simp at h2; subst h2; exact isDigit_digitChar (Nat.mod_lt n (by omega))

theorem natDigits_ne_nil (n : Nat) : natDigits n ≠ [] := by
  rw [natDigits, natDigitsAux]
  split <;> simp

theorem natDigits_all_digits (n : Nat) : ∀ c ∈ natDigits n, isDigit c = true :=
  natDigitsAux_all_digits (n + 1) n

theorem data_append (a b : String) : (a ++ b).data = a.data ++ b.data := rfl

theorem data_mk (l : List Char) : (String.mk l).data = l := rfl

theorem strEq_of_data {a b : String} : a.data = b.data → a = b := by
  cases a; cases b; intro h; exact congrArg String.mk h

theorem dropWhile_append_of_all {p : Char → Bool} {ds : List Char} (t : List Char)
    (h : ∀ c ∈ ds, p c = true) : (ds ++ t).dropWhile p = t.dropWhile p := by
  induction ds with
  | nil => rfl
  | cons c cs ih =>
    have hc : p c = true := h c (by simp)
    simp only [List.cons_append, List.dropWhile_cons, hc, if_true]
    exact ih (fun x hx => h x (by simp [hx]))

theorem takeWhile_append_of_all {p : Char → Bool} {ds : List Char} (t : List Char)
    (h : ∀ c ∈ ds, p c = true) : (ds ++ t).takeWhile p = ds ++ t.takeWhile p := by
  induction ds with
  | nil => rfl
  | cons c cs ih =>
    have hc : p c = true := h c (by simp)
    simp only [List.cons_append, List.takeWhile_cons, hc, if_true]
    rw [ih (fun x hx => h x (by simp [hx]))]

theorem stripMinus_of_digits {l t : List Char} (hne : l ≠ [])
    (hdig : ∀ c ∈ l, isDigit c = true) : stripMinus (l ++ t) = l ++ t := by
  rcases l with _ | ⟨c, cs⟩
  · exact absurd rfl hne
  · have hc : isDigit c = true := hdig c (by simp)
    have hcne : c ≠ '-' := by
      intro hceq; rw [hceq] at hc; exact absurd hc (by decide)
    simp only [List.cons_append]
    rw [stripMinus.eq_def]
    split
    · next heq =>
      have : c = '-' := by
        have := congrArg List.head? heq
        simpa using this
      exact absurd this hcne
    · rfl

theorem isTwoDecimal_parts (pre : List Char) (q r : Nat) (hpre : pre = [] ∨ pre = ['-'])
    (hr : r < 100) :
    isTwoDecimal ⟨pre ++ (natDigits q ++ '.' :: padNum 2 r)⟩ = true := by
  have hpad : (padNum 2 r : List Char) = [digitChar (r / 10), digitChar (r % 10)] := by
    simp [padNum, Nat.mod_mod_of_dvd]
  have hd1 : isDigit (digitChar (r / 10)) = true := isDigit_digitChar (by omega)
  have hd2 : isDigit (digitChar (r % 10)) = true := isDigit_digitChar (by omega)
  have hdigits := natDigits_all_digits q
  have hnonnil := natDigits_ne_nil q
  rw [isTwoDecimal]
  have hstrip : stripMinus ((String.mk (pre ++ (natDigits q ++ '.' :: padNum 2 r))).data) =
      natDigits q ++ '.' :: padNum 2 r := by
    rcases hpre with h | h <;> subst h
    · show stripMinus (natDigits q ++ '.' :: padNum 2 r) = _
      exact stripMinus_of_digits hnonnil hdigits
    · rfl
  rw [hstrip]
  rw [dropWhile_append_of_all _ hdigits, takeWhile_append_of_all _ hdigits]
  have hdot : isDigit '.' = false := by decide
  simp only [List.dropWhile_cons, List.takeWhile_cons, hdot, Bool.false_eq_true, if_false, hpad]
  simp [hd1, hd2, hnonnil]

theorem fmtFixed_eq_mk (prec : Nat) (a : Frac) :
    fmtFixed prec a =
      ⟨(if (a.mul (Frac.ofInt (10 ^ prec))).roundHalfAway < 0 then ['-'] else []) ++
        (natDigits ((a.mul (Frac.ofInt (10 ^ prec))).roundHalfAway.natAbs / 10 ^ prec) ++
          '.' :: padNum prec ((a.mul (Frac.ofInt (10 ^ prec))).roundHalfAway.natAbs % 10 ^ prec))⟩ := by
  rw [fmtFixed]
  apply strEq_of_data
  by_cases h : (a.mul (Frac.ofInt (10 ^ prec))).roundHalfAway < 0
  · simp only [if_pos h, data_append, data_mk, natStr]
    show ['-'] ++ _ ++ ['.'] ++ _ = _
    simp [List.append_assoc]
  · simp only [if_neg h, data_append, data_mk, natStr]
    show ([] : List Char) ++ _ ++ ['.'] ++ _ = _
    simp [List.append_assoc]

/-- The rendering `fmtFixed 2` always has the two-decimal shape. -/
theorem isTwoDecimal_fmtFixed (a : Frac) : isTwoDecimal (fmtFixed 2 a) = true := by
  rw [fmtFixed_eq_mk]
  refine isTwoDecimal_parts _ _ _ (by split <;> simp) ?_
  have h : (a.mul (Frac.ofInt (10 ^ 2))).roundHalfAway.natAbs % 10 ^ 2 < 10 ^ 2 :=
    Nat.mod_lt _ (by norm_num)
  norm_num at h ⊢
  exact h

/-! ## Characterizing the `GetStacks` sort -/

theorem goBubble_stacksLess (e : DashboardStack) (r : List DashboardStack) :
    goBubble stacksLess e r =
      if e.status == statusRunning then r ++ [e] else e :: r := by
  induction r with
  | nil => cases h : (e.status == statusRunning) <;> simp [goBubble, stacksLess, h]
  | cons p ps ih =>
    cases h : (e.status == statusRunning) <;>
      simp [goBubble, stacksLess, h, ih]

theorem goSortSlice_stacks_foldl (l : List DashboardStack) (acc : List DashboardStack) :
    l.foldl (fun acc e => goBubble stacksLess e acc) acc =
      (l.filter (fun s => !(s.status == statusRunning))).reverse ++ acc ++
        l.filter (fun s => s.status == statusRunning) := by
  induction l generalizing acc with
  | nil => simp
  | cons e es ih =>
    simp only [List.foldl_cons, List.filter_cons]
    cases h : (e.status == statusRunning)
    · simp only [h, Bool.not_false, if_pos rfl]
      rw [ih, goBubble_stacksLess, h]
      simp only [Bool.false_eq_true, if_false, List.reverse_cons]
      simp [List.append_assoc]
    · simp only [h, Bool.not_true]
      rw [ih, goBubble_stacksLess, h]
      simp only [if_pos rfl, Bool.false_eq_true, if_false]
      simp [List.append_assoc]

/-- What the `sort.Slice` call in `GetStacks` actually produces: the
"running" entries in reverse input order, followed by all other entries in
input order. -/
theorem getStacksSort_eq (l : List DashboardStack) :
    getStacksSort l =
      (l.filter (fun s => s.status == statusRunning)).reverse ++
        l.filter (fun s => !(s.status == statusRunning)) := by
  rw [getStacksSort, goSortSlice, goSortSlice_stacks_foldl]
  simp

/-! ## Characterizing the `getStackMemoryDisk` accumulator -/

theorem lastAtoiMatch_cons (v : MetricDataResult) (vs : List MetricDataResult)
    (c nm : String) (d : Int) :
    lastAtoiMatch (v :: vs) c nm d =
      if v.tacoCluster == c && v.name == nm then
        lastAtoiMatch vs c nm ((atoi? v.value).getD 0)
      else lastAtoiMatch vs c nm d := by
  rw [lastAtoiMatch]
  rw [List.filter_cons]
  cases h : (v.tacoCluster == c && v.name == nm)
  · rw [if_neg (by simp [h]), if_neg (by simp [h])]
    rfl
  · rw [if_pos (by simp [h]), if_pos (by simp [h])]
    rw [List.map_cons, List.getLastD_cons]
    rfl

theorem msdStep_foldl (result : List MetricDataResult) (c : String) (f m u cap : Int) :
    result.foldl (msdStep c) (f, m, u, cap) =
      (lastAtoiMatch result c "node_memory_MemFree_bytes" f,
       lastAtoiMatch result c "machine_memory_bytes" m,
       lastAtoiMatch result c "kubelet_volume_stats_used_bytes" u,
       lastAtoiMatch result c "kubelet_volume_stats_capacity_bytes" cap) := by
  induction result generalizing f m u cap with
  | nil => simp [lastAtoiMatch]
  | cons v vs ih =>
    simp only [List.foldl_cons]
    rw [lastAtoiMatch_cons, lastAtoiMatch_cons, lastAtoiMatch_cons, lastAtoiMatch_cons]
    cases hc : (v.tacoCluster == c)
    · simp only [msdStep, hc, Bool.false_eq_true, if_false, Bool.false_and, ih]
    · cases g1 : (v.name == "node_memory_MemFree_bytes")
      · cases g2 : (v.name == "machine_memory_bytes")
        · cases g3 : (v.name == "kubelet_volume_stats_used_bytes")
          · cases g4 : (v.name == "kubelet_volume_stats_capacity_bytes")
            · simp only [msdStep, hc, g1, g2, g3, g4, Bool.true_and, Bool.false_eq_true,
                if_false, if_true, ih]
            · simp only [msdStep, hc, g1, g2, g3, g4, Bool.true_and, Bool.false_eq_true,
                if_false, if_true, ih]
          · have g4 : (v.name == "kubelet_volume_stats_capacity_bytes") = false := by
              have hn : v.name = "kubelet_volume_stats_used_bytes" := by
                exact eq_of_beq g3
              rw [hn]; decide
            simp only [msdStep, hc, g1, g2, g3, g4, Bool.true_and, Bool.false_eq_true,
              if_false, if_true, ih]
        · have g3 : (v.name == "kubelet_volume_stats_used_bytes") = false := by
            have hn : v.name = "machine_memory_bytes" := eq_of_beq g2
            rw [hn]; decide
          have g4 : (v.name == "kubelet_volume_stats_capacity_bytes") = false := by
            have hn : v.name = "machine_memory_bytes" := eq_of_beq g2
            rw [hn]; decide
          simp only [msdStep, hc, g1, g2, g3, g4, Bool.true_and, Bool.false_eq_true,
            if_false, if_true, ih]
      · have hn : v.name = "node_memory_MemFree_bytes" := eq_of_beq g1
        have g2 : (v.name == "machine_memory_bytes") = false := by rw [hn]; decide
        have g3 : (v.name == "kubelet_volume_stats_used_bytes") = false := by rw [hn]; decide
        have g4 : (v.name == "kubelet_volume_stats_capacity_bytes") = false := by rw [hn]; decide
        simp only [msdStep, hc, g1, g2, g3, g4, Bool.true_and, Bool.false_eq_true,
          if_false, if_true, ih]

/-! ## Claim C1 — aligned cell extraction -/

/-- C1, counterexample.  The claim says the cell is produced by scanning for
a timestamp match and parsing only the matching sample, with `""` only when
the matching sample fails to parse or no sample matches.  Here the series
has a sample that matches x-entry `"2"` and parses (value `"5"`, which the
claimed rule would emit as `"5.000000"`), yet `getChartYValue` returns `""`,
because it parses the earlier non-matching sample `"abc"` first and aborts
the scan on that parse failure. -/
theorem claimC1_counterexample :
    getChartYValue [(⟨1, 1⟩, "abc"), (⟨2, 1⟩, "5")] "2" false = "" ∧
      intStr (goRound ⟨2, 1⟩) = "2" ∧
      parseFrac? "5" = some (Frac.ofInt 5) ∧
      fmtFixed 6 (Frac.ofInt 5) = "5.000000" ∧
      ("" : String) ≠ "5.000000" := by
  refine ⟨by decide, by decide, by decide, by decide, by decide⟩

/-- C1, amended.  `getChartYValue` parses every sample it scans, in order,
before checking the timestamp: (a) if every sample strictly before the first
match parses and the matching sample parses to `y`, the cell is `y`
(times 100 under percentage scaling) rendered with `"%f"`; (b) if some
sample before any match fails to parse, the cell is the empty string even
when a later sample matches; (c) if no sample matches and all parse, the
cell is exactly the empty string — never `"0"`. -/
theorem claimC1_prop :
    (∀ (pre post : List (Frac × String)) (t : Frac) (v xData : String) (p : Bool) (y : Frac),
      (∀ s ∈ pre, intStr (goRound s.1) ≠ xData) →
      (∀ s ∈ pre, (parseFrac? s.2).isSome) →
      intStr (goRound t) = xData →
      parseFrac? v = some y →
      getChartYValue (pre ++ (t, v) :: post) xData p =
        fmtFixed 6 (if p then y.mul (Frac.ofInt 100) else y)) ∧
    (∀ (pre post : List (Frac × String)) (t : Frac) (v xData : String) (p : Bool),
      (∀ s ∈ pre, intStr (goRound s.1) ≠ xData) →
      (∀ s ∈ pre, (parseFrac? s.2).isSome) →
      parseFrac? v = none →
      getChartYValue (pre ++ (t, v) :: post) xData p = "") ∧
    (∀ (vals : List (Frac × String)) (xData : String) (p : Bool),
      (∀ s ∈ vals, intStr (goRound s.1) ≠ xData) →
      getChartYValue vals xData p = "") := by
  refine ⟨?_, ?_, ?_⟩
  · intro pre post t v xData p y hnom hparse hmatch hv
    induction pre with
    | nil =>
      simp only [List.nil_append, getChartYValue, hv, hmatch, if_pos]
    | cons s ss ih =>
      obtain ⟨ts, vs⟩ := s
      have h1 : intStr (goRound ts) ≠ xData := hnom (ts, vs) (by simp)
      have h2 : (parseFrac? vs).isSome := hparse (ts, vs) (by simp)
      rcases hp : parseFrac? vs with _ | w
      · rw [hp] at h2; simp at h2
      · simp only [List.cons_append, getChartYValue, hp, if_neg h1]
        exact ih (fun s hs => hnom s (by simp [hs])) (fun s hs => hparse s (by simp [hs]))
  · intro pre post t v xData p hnom hparse hv
    induction pre with
    | nil => simp only [List.nil_append, getChartYValue, hv]
    | cons s ss ih =>
      obtain ⟨ts, vs⟩ := s
      have h1 : intStr (goRound ts) ≠ xData := hnom (ts, vs) (by simp)
      have h2 : (parseFrac? vs).isSome := hparse (ts, vs) (by simp)
      rcases hp : parseFrac? vs with _ | w
      · rw [hp] at h2; simp at h2
      · simp only [List.cons_append, getChartYValue, hp, if_neg h1]
        exact ih (fun s hs => hnom s (by simp [hs])) (fun s hs => hparse s (by simp [hs]))
  · intro vals xData p hnom
    induction vals with
    | nil => rfl
    | cons s ss ih =>
      obtain ⟨ts, vs⟩ := s
      have h1 : intStr (goRound ts) ≠ xData := hnom (ts, vs) (by simp)
      rcases hp : parseFrac? vs with _ | w
      · simp only [getChartYValue, hp]
      · simp only [getChartYValue, hp, if_neg h1]
        exact ih (fun s hs => hnom s (by simp [hs]))

/-- C1, witness for the amended theorem at concrete inputs. -/
theorem claimC1_witness :
    (∀ s ∈ [((⟨1, 1⟩ : Frac), "7")], intStr (goRound s.1) ≠ "2") ∧
      getChartYValue [(⟨1, 1⟩, "7"), (⟨2, 1⟩, "5")] "2" false = fmtFixed 6 (Frac.ofInt 5) := by
  constructor
  · decide
  · have h := claimC1_prop.1 [(⟨1, 1⟩, "7")] [] ⟨2, 1⟩ "5" "2" false (Frac.ofInt 5)
      (by decide) (by decide) (by decide) (by decide)
    simpa using h

/-! ## Claim C2 — the `GetStacks` status sort -/

/-- C2, counterexample.  With input statuses (running, error, running) the
two running entries come out in reversed relative order — `c3` before `c1` —
because `sort.Slice` is not stable and the comparator
`out[i].Status == "RUNNING"` is not a strict weak order, so the claimed
input-order preservation among equal statuses fails. -/
theorem claimC2_counterexample :
    getStacksSort
        [⟨"c1", statusRunning, "", "", ""⟩, ⟨"c2", "ERROR", "", "", ""⟩,
          ⟨"c3", statusRunning, "", "", ""⟩] =
      [⟨"c3", statusRunning, "", "", ""⟩, ⟨"c1", statusRunning, "", "", ""⟩,
        ⟨"c2", "ERROR", "", "", ""⟩] ∧
    (⟨"c1", statusRunning, "", "", ""⟩ : DashboardStack) ≠ ⟨"c3", statusRunning, "", "", ""⟩ := by
  refine ⟨by decide, by decide⟩

/-- C2, amended.  For inputs of fewer than 12 summaries (where Go's
`sort.Slice` runs plain insertion sort), the sorted list is exactly: the
entries whose status equals the running status, in **reverse** input order,
followed by all other entries in input order.  In particular running entries
still precede all others, but equal-status relative order is reversed for
the running block, not preserved. -/
theorem claimC2_prop (l : List DashboardStack) (_h : l.length < 12) :
    getStacksSort l =
      (l.filter (fun s => s.status == statusRunning)).reverse ++
        l.filter (fun s => !(s.status == statusRunning)) :=
  getStacksSort_eq l

/-- C2, witness at the three-cluster scenario. -/
theorem claimC2_witness :
    ([⟨"c1", statusRunning, "", "", ""⟩, ⟨"c2", "ERROR", "", "", ""⟩,
        ⟨"c3", statusRunning, "", "", ""⟩] : List DashboardStack).length < 12 ∧
      getStacksSort
          [⟨"c1", statusRunning, "", "", ""⟩, ⟨"c2", "ERROR", "", "", ""⟩,
            ⟨"c3", statusRunning, "", "", ""⟩] =
        (([⟨"c1", statusRunning, "", "", ""⟩, ⟨"c2", "ERROR", "", "", ""⟩,
            ⟨"c3", statusRunning, "", "", ""⟩] : List DashboardStack).filter
              (fun s => s.status == statusRunning)).reverse ++
          ([⟨"c1", statusRunning, "", "", ""⟩, ⟨"c2", "ERROR", "", "", ""⟩,
            ⟨"c3", statusRunning, "", "", ""⟩] : List DashboardStack).filter
            (fun s => !(s.status == statusRunning)) :=
  ⟨by decide, claimC2_prop _ (by decide)⟩

/-! ## Claim C3 — utilization joins on duplicate samples -/

/-- C3, counterexample.  Two samples carry `machine_memory_bytes` for the
same cluster (`"10"` then `"20"`).  A first-match join would use `10` and
render memory `"80.00"`; the code's memory/disk join keeps overwriting, so
the **last** match wins and it renders `"90.00"`. -/
theorem claimC3_counterexample :
    getStackMemoryDisk
        [⟨"machine_memory_bytes", "c", "10"⟩, ⟨"machine_memory_bytes", "c", "20"⟩,
          ⟨"node_memory_MemFree_bytes", "c", "2"⟩] "c" = ("90.00", "") ∧
      fmtFixed 2 (((Frac.ofInt 1).sub ((Frac.ofInt 2).div (Frac.ofInt 10))).mul (Frac.ofInt 100)) =
        "80.00" ∧
      ("90.00" : String) ≠ "80.00" := by
  refine ⟨by decide, by decide, by decide⟩

/-- C3, amended.  The CPU join is first-match-wins: with no earlier sample
of the cluster, the first matching sample decides the CPU cell (rendered
`"%0.2f"` when it parses, empty otherwise).  The memory and disk joins scan
the whole result and the **last** matching sample for each metric name wins
(parse failures entering as 0).  All joins are total functions, so duplicate
labels never crash. -/
theorem claimC3_prop :
    (∀ (pre post : List MetricDataResult) (v : MetricDataResult) (c : String),
      (∀ s ∈ pre, s.tacoCluster ≠ c) →
      v.tacoCluster = c →
      getStackCpu (pre ++ v :: post) c =
        (match parseFrac? v.value with
         | some s => fmtFixed 2 s
         | none => "")) ∧
    (∀ (result : List MetricDataResult) (c : String),
      getStackMemoryDisk result c =
        ((if lastAtoiMatch result c "machine_memory_bytes" 0 > 0 then
            fmtFixed 2 (((Frac.ofInt 1).sub
              ((Frac.ofInt (lastAtoiMatch result c "node_memory_MemFree_bytes" 0)).div
                (Frac.ofInt (lastAtoiMatch result c "machine_memory_bytes" 0)))).mul
              (Frac.ofInt 100))
          else ""),
         (if lastAtoiMatch result c "kubelet_volume_stats_capacity_bytes" 0 > 0 then
            fmtFixed 2 (((Frac.ofInt (lastAtoiMatch result c "kubelet_volume_stats_used_bytes" 0)).div
              (Frac.ofInt (lastAtoiMatch result c "kubelet_volume_stats_capacity_bytes" 0))).mul
              (Frac.ofInt 100))
          else ""))) := by
  constructor
  · intro pre post v c hpre hv
    induction pre with
    | nil =>
      simp only [List.nil_append, getStackCpu]
      rw [if_pos (by simp [hv])]
    | cons s ss ih =>
      have h1 : s.tacoCluster ≠ c := hpre s (by simp)
      simp only [List.cons_append, getStackCpu]
      rw [if_neg (by simp [h1])]
      exact ih (fun x hx => hpre x (by simp [hx]))
  · intro result c
    rw [getStackMemoryDisk, msdStep_foldl]

/-- C3, witness for the amended theorem at concrete inputs. -/
theorem claimC3_witness :
    (∀ s ∈ [(⟨"x", "other", "9"⟩ : MetricDataResult)], s.tacoCluster ≠ "c") ∧
      getStackCpu [⟨"x", "other", "9"⟩, ⟨"cpu", "c", "55.5"⟩] "c" = "55.50" ∧
      getStackMemoryDisk
          [⟨"machine_memory_bytes", "c", "10"⟩, ⟨"machine_memory_bytes", "c", "20"⟩,
            ⟨"node_memory_MemFree_bytes", "c", "2"⟩] "c" =
        ((if lastAtoiMatch
              [⟨"machine_memory_bytes", "c", "10"⟩, ⟨"machine_memory_bytes", "c", "20"⟩,
                ⟨"node_memory_MemFree_bytes", "c", "2"⟩] "c" "machine_memory_bytes" 0 > 0 then
            fmtFixed 2 (((Frac.ofInt 1).sub
              ((Frac.ofInt (lastAtoiMatch
                  [⟨"machine_memory_bytes", "c", "10"⟩, ⟨"machine_memory_bytes", "c", "20"⟩,
                    ⟨"node_memory_MemFree_bytes", "c", "2"⟩] "c" "node_memory_MemFree_bytes" 0)).div
                (Frac.ofInt (lastAtoiMatch
                  [⟨"machine_memory_bytes", "c", "10"⟩, ⟨"machine_memory_bytes", "c", "20"⟩,
                    ⟨"node_memory_MemFree_bytes", "c", "2"⟩] "c" "machine_memory_bytes" 0)))).mul
              (Frac.ofInt 100))
          else ""),
         (if lastAtoiMatch
              [⟨"machine_memory_bytes", "c", "10"⟩, ⟨"machine_memory_bytes", "c", "20"⟩,
                ⟨"node_memory_MemFree_bytes", "c", "2"⟩] "c" "kubelet_volume_stats_capacity_bytes" 0 > 0 then
            fmtFixed 2 (((Frac.ofInt (lastAtoiMatch
              [⟨"machine_memory_bytes", "c", "10"⟩, ⟨"machine_memory_bytes", "c", "20"⟩,
                ⟨"node_memory_MemFree_bytes", "c", "2"⟩] "c" "kubelet_volume_stats_used_bytes" 0)).div
              (Frac.ofInt (lastAtoiMatch
                [⟨"machine_memory_bytes", "c", "10"⟩, ⟨"machine_memory_bytes", "c", "20"⟩,
                  ⟨"node_memory_MemFree_bytes", "c", "2"⟩] "c" "kubelet_volume_stats_capacity_bytes" 0))).mul
              (Frac.ofInt 100))
          else "")) := by
  refine ⟨by decide, ?_, claimC3_prop.2 _ "c"⟩
  have h := claimC3_prop.1 [⟨"x", "other", "9"⟩] [] ⟨"cpu", "c", "55.5"⟩ "c"
    (by decide) (by decide)
  show getStackCpu ([⟨"x", "other", "9"⟩] ++ [⟨"cpu", "c", "55.5"⟩]) "c" = "55.50"
  rw [h]
  decide

/-- The scan-then-guard result of `getStackMemoryDisk`, with the four
accumulators written as last-match joins. -/
theorem getStackMemoryDisk_eq (result : List MetricDataResult) (c : String) :
    getStackMemoryDisk result c =
      ((if lastAtoiMatch result c "machine_memory_bytes" 0 > 0 then
          fmtFixed 2 (((Frac.ofInt 1).sub
            ((Frac.ofInt (lastAtoiMatch result c "node_memory_MemFree_bytes" 0)).div
              (Frac.ofInt (lastAtoiMatch result c "machine_memory_bytes" 0)))).mul
            (Frac.ofInt 100))
        else ""),
       (if lastAtoiMatch result c "kubelet_volume_stats_capacity_bytes" 0 > 0 then
          fmtFixed 2 (((Frac.ofInt (lastAtoiMatch result c "kubelet_volume_stats_used_bytes" 0)).div
            (Frac.ofInt (lastAtoiMatch result c "kubelet_volume_stats_capacity_bytes" 0))).mul
            (Frac.ofInt 100))
        else "")) := by
  rw [getStackMemoryDisk, msdStep_foldl]

/-! ## Claim C6 — memory/disk percentage guards and formulas -/

/-- C6.  The memory cell is emitted only when the accumulated
`machine_memory_bytes` total is positive, as the `"%0.2f"` rendering of
`(1 - free/total)*100`, and the disk cell only when the accumulated
`kubelet_volume_stats_capacity_bytes` total is positive, as the `"%0.2f"`
rendering of `(used/capacity)*100`; otherwise each is the empty string. -/
theorem claimC6_prop (result : List MetricDataResult) (c : String) :
    (0 < lastAtoiMatch result c "machine_memory_bytes" 0 →
      (getStackMemoryDisk result c).1 =
        fmtFixed 2 (((Frac.ofInt 1).sub
          ((Frac.ofInt (lastAtoiMatch result c "node_memory_MemFree_bytes" 0)).div
            (Frac.ofInt (lastAtoiMatch result c "machine_memory_bytes" 0)))).mul
          (Frac.ofInt 100))) ∧
    (lastAtoiMatch result c "machine_memory_bytes" 0 ≤ 0 →
      (getStackMemoryDisk result c).1 = "") ∧
    (0 < lastAtoiMatch result c "kubelet_volume_stats_capacity_bytes" 0 →
      (getStackMemoryDisk result c).2 =
        fmtFixed 2 (((Frac.ofInt (lastAtoiMatch result c "kubelet_volume_stats_used_bytes" 0)).div
          (Frac.ofInt (lastAtoiMatch result c "kubelet_volume_stats_capacity_bytes" 0))).mul
          (Frac.ofInt 100))) ∧
    (lastAtoiMatch result c "kubelet_volume_stats_capacity_bytes" 0 ≤ 0 →
      (getStackMemoryDisk result c).2 = "") := by
  rw [getStackMemoryDisk_eq]
  refine ⟨fun h => ?_, fun h => ?_, fun h => ?_, fun h => ?_⟩
  · simp only [if_pos h]
  · simp only [if_neg (by omega : ¬ lastAtoiMatch result c "machine_memory_bytes" 0 > 0)]
  · simp only [if_pos h]
  · simp only
      [if_neg (by omega : ¬ lastAtoiMatch result c "kubelet_volume_stats_capacity_bytes" 0 > 0)]

/-- C6, witness: free=2, total=10 renders memory `"80.00"` (and the missing
capacity renders disk `""`). -/
theorem claimC6_witness :
    (0 < lastAtoiMatch
        [⟨"node_memory_MemFree_bytes", "c", "2"⟩, ⟨"machine_memory_bytes", "c", "10"⟩]
        "c" "machine_memory_bytes" 0) ∧
      (getStackMemoryDisk
          [⟨"node_memory_MemFree_bytes", "c", "2"⟩, ⟨"machine_memory_bytes", "c", "10"⟩] "c").1 =
        "80.00" ∧
      (getStackMemoryDisk
          [⟨"node_memory_MemFree_bytes", "c", "2"⟩, ⟨"machine_memory_bytes", "c", "10"⟩] "c").2 =
        "" := by
  refine ⟨by decide, ?_, ?_⟩
  · have h := (claimC6_prop
      [⟨"node_memory_MemFree_bytes", "c", "2"⟩, ⟨"machine_memory_bytes", "c", "10"⟩] "c").1
      (by decide)
    rw [h]
    decide
  · have h := (claimC6_prop
      [⟨"node_memory_MemFree_bytes", "c", "2"⟩, ⟨"machine_memory_bytes", "c", "10"⟩] "c").2.2.2
      (by decide)
    exact h

/-! ## Claim C7 — organization-wide resource totals -/

theorem cpuStep_none {v : String} (a : Int) (hv : atoi? v = none) : cpuStep a v = a := by
  simp [cpuStep, hv]

theorem cpuStep_some {v : String} {n : Int} (a : Int) (hv : atoi? v = some n) :
    cpuStep a v = if n > 0 then a + n else a := by
  simp [cpuStep, hv]

theorem gbStep_none {v : String} (a : Int) (hv : atoi? v = none) : gbStep a v = a := by
  simp [gbStep, hv]

theorem gbStep_some {v : String} {n : Int} (a : Int) (hv : atoi? v = some n) :
    gbStep a v = if n > 0 then a + n / 1024 / 1024 / 1024 else a := by
  simp [gbStep, hv]

theorem sumCpu_go (l : List String) (a : Int) :
    l.foldl cpuStep a = a + ((l.filterMap atoi?).filter (fun n => decide (0 < n))).sum := by
  induction l generalizing a with
  | nil => simp
  | cons v vs ih =>
    rw [List.foldl_cons, List.filterMap_cons]
    cases hv : atoi? v with
    | none =>
      rw [cpuStep_none a hv, ih]
    | some n =>
      rw [cpuStep_some a hv]
      show _ = a + (List.filter (fun n => decide (0 < n)) (n :: List.filterMap atoi? vs)).sum
      by_cases hn : n > 0
      · rw [if_pos hn, ih, List.filter_cons, if_pos (by simpa using hn), List.sum_cons]
        ring
      · rw [if_neg hn, ih, List.filter_cons, if_neg (by simpa using hn)]

theorem sumGB_go (l : List String) (a : Int) :
    l.foldl gbStep a =
      a + (((l.filterMap atoi?).filter (fun n => decide (0 < n))).map
        (fun n => n / 1024 / 1024 / 1024)).sum := by
  induction l generalizing a with
  | nil => simp
  | cons v vs ih =>
    rw [List.foldl_cons, List.filterMap_cons]
    cases hv : atoi? v with
    | none =>
      rw [gbStep_none a hv, ih]
    | some n =>
      rw [gbStep_some a hv]
      show _ = a + (List.map (fun n => n / 1024 / 1024 / 1024)
        (List.filter (fun n => decide (0 < n)) (n :: List.filterMap atoi? vs))).sum
      by_cases hn : n > 0
      · rw [if_pos hn, ih, List.filter_cons, if_pos (by simpa using hn), List.map_cons,
          List.sum_cons]
        ring
      · rw [if_neg hn, ih, List.filter_cons, if_neg (by simpa using hn)]

/-- C7.  `GetResources` totals: the CPU total is the sum of exactly the
positive parsable samples (negative and unparsable samples are skipped, not
zeroed — on `["32","12","-5","abc"]` the total is 44); the memory/storage
totals divide each positive parsable per-cluster byte count by 1024 three
times (= integer division by 1024³) before summing. -/
theorem claimC7_prop :
    (∀ l, sumCpu l = ((l.filterMap atoi?).filter (fun n => decide (0 < n))).sum) ∧
    (∀ l, sumGB l =
      (((l.filterMap atoi?).filter (fun n => decide (0 < n))).map
        (fun n => n / 1024 / 1024 / 1024)).sum) ∧
    (∀ n : Int, 0 ≤ n → n / 1024 / 1024 / 1024 = n / 1024 ^ 3) ∧
    sumCpu ["32", "12", "-5", "abc"] = 44 := by
  refine ⟨fun l => ?_, fun l => ?_, fun n hn => ?_, by decide⟩
  · rw [sumCpu, sumCpu_go]; simp
  · rw [sumGB, sumGB_go]; simp
  · lift n to ℕ using hn
    norm_cast
    rw [Nat.div_div_eq_div_mul, Nat.div_div_eq_div_mul]
    norm_num

/-- C7, witness: the divisor identity at a concrete positive byte count,
and the stated CPU scenario. -/
theorem claimC7_witness :
    (0 : Int) ≤ 2147483648 ∧
      (2147483648 : Int) / 1024 / 1024 / 1024 = 2147483648 / 1024 ^ 3 ∧
      sumCpu ["32", "12", "-5", "abc"] = 44 :=
  ⟨by decide, claimC7_prop.2.2.1 2147483648 (by decide), claimC7_prop.2.2.2⟩

/-! ## Claim C10 — shape of the stack utilization fields -/

theorem data_empty : ("" : String).data = [] := rfl

theorem fmtFixed_ne_empty (prec : Nat) (a : Frac) : fmtFixed prec a ≠ "" := by
  rw [fmtFixed_eq_mk]
  intro h
  have h2 := congrArg String.data h
  rw [data_mk, data_empty] at h2
  rcases List.append_eq_nil.mp h2 with ⟨_, h3⟩
  rcases List.append_eq_nil.mp h3 with ⟨h4, _⟩
  exact natDigits_ne_nil _ h4

theorem getStackCpu_shape (result : List MetricDataResult) (c : String) :
    getStackCpu result c = "" ∨ ∃ s, getStackCpu result c = fmtFixed 2 s := by
  induction result with
  | nil => left; rfl
  | cons v vs ih =>
    by_cases hc : (v.tacoCluster == c) = true
    · rcases hp : parseFrac? v.value with _ | s
      · left; simp [getStackCpu, hc, hp]
      · right; exact ⟨s, by simp [getStackCpu, hc, hp]⟩
    · have hc' : (v.tacoCluster == c) = false := by simpa using hc
      simpa only [getStackCpu, hc', Bool.false_eq_true, if_false] using ih

/-- C10.  Every one of the cpu, memory and storage fields attached to a
stack summary is either exactly the empty string, or a `"%0.2f"`-shaped
two-decimal number followed by `" %"`; the suffix is appended only to
non-empty utilization values. -/
theorem claimC10_prop (memDisk cpuRes : List MetricDataResult) (c : String) :
    ((stackUtilizationFields memDisk cpuRes c).1 = "" ∨
      ∃ t, isTwoDecimal t = true ∧ (stackUtilizationFields memDisk cpuRes c).1 = t ++ " %") ∧
    ((stackUtilizationFields memDisk cpuRes c).2.1 = "" ∨
      ∃ t, isTwoDecimal t = true ∧ (stackUtilizationFields memDisk cpuRes c).2.1 = t ++ " %") ∧
    ((stackUtilizationFields memDisk cpuRes c).2.2 = "" ∨
      ∃ t, isTwoDecimal t = true ∧ (stackUtilizationFields memDisk cpuRes c).2.2 = t ++ " %") := by
  have hmd := getStackMemoryDisk_eq memDisk c
  refine ⟨?_, ?_, ?_⟩
  · rcases getStackCpu_shape cpuRes c with h | ⟨s, h⟩
    · left
      simp only [stackUtilizationFields, h]
      rfl
    · right
      refine ⟨fmtFixed 2 s, isTwoDecimal_fmtFixed s, ?_⟩
      simp only [stackUtilizationFields, h]
      rw [if_pos (by simp [bne_iff_ne, fmtFixed_ne_empty])]
  · simp only [stackUtilizationFields, hmd]
    by_cases h : lastAtoiMatch memDisk c "machine_memory_bytes" 0 > 0
    · right
      refine ⟨fmtFixed 2 (((Frac.ofInt 1).sub
          ((Frac.ofInt (lastAtoiMatch memDisk c "node_memory_MemFree_bytes" 0)).div
            (Frac.ofInt (lastAtoiMatch memDisk c "machine_memory_bytes" 0)))).mul
          (Frac.ofInt 100)), isTwoDecimal_fmtFixed _, ?_⟩
      simp only [if_pos h]
      rw [if_pos (by simp [bne_iff_ne, fmtFixed_ne_empty])]
    · left
      simp only [if_neg h]
      rfl
  · simp only [stackUtilizationFields, hmd]
    by_cases h : lastAtoiMatch memDisk c "kubelet_volume_stats_capacity_bytes" 0 > 0
    · right
      refine ⟨fmtFixed 2 (((Frac.ofInt (lastAtoiMatch memDisk c "kubelet_volume_stats_used_bytes" 0)).div
          (Frac.ofInt (lastAtoiMatch memDisk c "kubelet_volume_stats_capacity_bytes" 0))).mul
          (Frac.ofInt 100)), isTwoDecimal_fmtFixed _, ?_⟩
      simp only [if_pos h]
      rw [if_pos (by simp [bne_iff_ne, fmtFixed_ne_empty])]
    · left
      simp only [if_neg h]
      rfl

/-! ## Claims C8 and C9 — endpoint resolution and its cache -/

theorem composedUrl_ne_empty (scheme host : String) (port : Int) :
    scheme ++ "://" ++ host ++ ":" ++ intStr port ≠ "" := by
  intro h
  have h2 := congrArg String.length h
  rw [String.length_append, String.length_append, String.length_append,
    String.length_append] at h2
  have e1 : ("://" : String).length = 3 := rfl
  have e2 : (":" : String).length = 1 := rfl
  have e3 : ("" : String).length = 0 := rfl
  rw [e1, e2, e3] at h2
  omega

/-- Exhaustive description of what `getThanosUrl` can return: a cache hit
echoed without lookup, or — after a miss and a lookup — an error with the
cache untouched, a silent empty success with the cache untouched, or a
composed URL that is also pushed onto the cache. -/
theorem getThanosUrl_cases (env : ThanosEnv) (cache : List (String × String)) (orgId : String) :
    (∃ v, List.lookup (thanosCacheKey orgId) cache = some v ∧
      getThanosUrl env cache orgId = ⟨.ok v, cache, false⟩) ∨
    (List.lookup (thanosCacheKey orgId) cache = none ∧
      ((∃ e, getThanosUrl env cache orgId = ⟨.error e, cache, true⟩) ∨
       getThanosUrl env cache orgId = ⟨.ok "", cache, true⟩ ∨
       (∃ scheme host port, getThanosUrl env cache orgId =
          ⟨.ok (scheme ++ "://" ++ host ++ ":" ++ intStr port),
           (thanosCacheKey orgId, scheme ++ "://" ++ host ++ ":" ++ intStr port) :: cache,
           true⟩))) := by
  rcases hlook : List.lookup (thanosCacheKey orgId) cache with _ | v
  · refine Or.inr ⟨rfl, ?_⟩
    rcases ho : env.orgResult with e | org
    · exact Or.inl ⟨"Failed to get organization: " ++ e, by simp only [getThanosUrl, hlook, ho]⟩
    · by_cases hp : org.primaryClusterId = ""
      · exact Or.inl ⟨"Invalid primary clusterId", by simp only [getThanosUrl, hlook, ho, if_pos hp]⟩
      · rcases hc : env.clientResult with e | u
        · exact Or.inl ⟨"Failed to get client set for user cluster: " ++ e,
            by simp only [getThanosUrl, hlook, ho, if_neg hp, hc]⟩
        · rcases hs : (match env.primarySvc with
              | .ok s => Except.ok s
              | .error _ => env.fallbackSvc) with e | svc
          · exact Or.inl ⟨"Failed to get services.",
              by simp only [getThanosUrl, hlook, ho, if_neg hp, hc, hs]⟩
          · by_cases ht : svc.type ≠ "LoadBalancer"
            · exact Or.inl ⟨"Service type is not LoadBalancer. [" ++ svc.type ++ "] ",
                by simp only [getThanosUrl, hlook, ho, if_neg hp, hc, hs, if_pos ht]⟩
            · rcases hh : svc.ingressHostnames with _ | ⟨host, hosts⟩
              · refine Or.inr (Or.inl ?_)
                simp only [getThanosUrl, hlook, ho, if_neg hp, hc, hs, if_neg ht, hh]
              · rcases hpo : svc.ports with _ | ⟨⟨scheme, port⟩, ports⟩
                · refine Or.inr (Or.inl ?_)
                  simp only [getThanosUrl, hlook, ho, if_neg hp, hc, hs, if_neg ht, hh, hpo]
                · refine Or.inr (Or.inr ⟨scheme, host, port, ?_⟩)
                  simp only [getThanosUrl, hlook, ho, if_neg hp, hc, hs, if_neg ht, hh, hpo]
  · exact Or.inl ⟨v, rfl, by simp only [getThanosUrl, hlook]⟩

/-- C8.  `getThanosUrl` (i) leaves the cache untouched on every error
return, (ii) writes the cache only when it returns a successfully composed
(hence non-empty) URL, storing exactly that URL under the tenant's key, and
(iii) on a cache hit returns the cached value unchanged without performing
any registry or cluster lookup. -/
theorem claimC8_prop (env : ThanosEnv) (cache : List (String × String)) (orgId : String) :
    (∀ e, (getThanosUrl env cache orgId).result = .error e →
      (getThanosUrl env cache orgId).cache = cache) ∧
    ((getThanosUrl env cache orgId).cache ≠ cache →
      ∃ url, (getThanosUrl env cache orgId).result = .ok url ∧
        (getThanosUrl env cache orgId).cache = (thanosCacheKey orgId, url) :: cache ∧
        url ≠ "") ∧
    (∀ v, List.lookup (thanosCacheKey orgId) cache = some v →
      getThanosUrl env cache orgId = ⟨.ok v, cache, false⟩) := by
  rcases getThanosUrl_cases env cache orgId with ⟨v, hlook, hval⟩ | ⟨hlook, hrest⟩
  · rw [hval]
    refine ⟨fun e he => rfl, fun h => absurd rfl h, fun w hw => ?_⟩
    rw [hlook] at hw
    cases hw
    rfl
  · have hmiss : ∀ w, List.lookup (thanosCacheKey orgId) cache = some w → False := by
      intro w hw
      rw [hlook] at hw
      cases hw
    rcases hrest with ⟨e, hval⟩ | hval | ⟨scheme, host, port, hval⟩
    · rw [hval]
      exact ⟨fun _ _ => rfl, fun h => absurd rfl h, fun w hw => (hmiss w hw).elim⟩
    · rw [hval]
      exact ⟨fun _ h => Except.noConfusion h, fun h => absurd rfl h, fun w hw => (hmiss w hw).elim⟩
    · rw [hval]
      refine ⟨fun _ h => Except.noConfusion h, fun _ => ?_, fun w hw => (hmiss w hw).elim⟩
      exact ⟨scheme ++ "://" ++ host ++ ":" ++ intStr port, rfl, rfl,
        composedUrl_ne_empty scheme host port⟩

/-- C8, witness: a cache hit for tenant `"T1"` is returned as-is, with no
lookup performed and the cache unchanged. -/
theorem claimC8_witness :
    List.lookup (thanosCacheKey "T1") [(thanosCacheKey "T1", "http://h:9090")] =
        some "http://h:9090" ∧
      getThanosUrl ⟨.error "reg", .ok (), .error "svc", .error "svc"⟩
          [(thanosCacheKey "T1", "http://h:9090")] "T1" =
        ⟨.ok "http://h:9090", [(thanosCacheKey "T1", "http://h:9090")], false⟩ :=
  ⟨by decide,
    (claimC8_prop ⟨.error "reg", .ok (), .error "svc", .error "svc"⟩
      [(thanosCacheKey "T1", "http://h:9090")] "T1").2.2 "http://h:9090" (by decide)⟩

/-- C9.  When resolution reaches a `LoadBalancer` service that reports no
ingress hostnames or no ports, `getThanosUrl` returns the empty URL with a
nil error (a silent success), performs the lookups, and does not populate
the cache. -/
theorem claimC9_prop (env : ThanosEnv) (cache : List (String × String)) (orgId : String)
    (org : Organization) (svc : K8sService)
    (hlook : List.lookup (thanosCacheKey orgId) cache = none)
    (ho : env.orgResult = .ok org)
    (hp : org.primaryClusterId ≠ "")
    (hc : env.clientResult = .ok ())
    (hs : (match env.primarySvc with
           | .ok s => Except.ok s
           | .error _ => env.fallbackSvc) = .ok svc)
    (ht : svc.type = "LoadBalancer")
    (hempty : svc.ingressHostnames = [] ∨ svc.ports = []) :
    getThanosUrl env cache orgId = ⟨.ok "", cache, true⟩ := by
  have ht' : ¬ svc.type ≠ "LoadBalancer" := by simp [ht]
  rcases hempty with hh | hpo
  · simp only [getThanosUrl, hlook, ho, if_neg hp, hc, hs, if_neg ht', hh]
  · rcases hh2 : svc.ingressHostnames with _ | ⟨host, hosts⟩
    · simp only [getThanosUrl, hlook, ho, if_neg hp, hc, hs, if_neg ht', hh2]
    · simp only [getThanosUrl, hlook, ho, if_neg hp, hc, hs, if_neg ht', hh2, hpo]

/-- C9, witness: a `LoadBalancer` service with a hostname but no ports
yields `ok ""` and an unchanged cache. -/
theorem claimC9_witness :
    ((⟨"LoadBalancer", ["h.aws"], []⟩ : K8sService).ingressHostnames = [] ∨
      (⟨"LoadBalancer", ["h.aws"], []⟩ : K8sService).ports = []) ∧
    getThanosUrl ⟨.ok ⟨"pc"⟩, .ok (), .ok ⟨"LoadBalancer", ["h.aws"], []⟩, .error "x"⟩ [] "T1" =
      ⟨.ok "", [], true⟩ :=
  ⟨Or.inr rfl,
    claimC9_prop ⟨.ok ⟨"pc"⟩, .ok (), .ok ⟨"LoadBalancer", ["h.aws"], []⟩, .error "x"⟩ [] "T1"
      ⟨"pc"⟩ ⟨"LoadBalancer", ["h.aws"], []⟩ (by decide) rfl (by decide) rfl rfl rfl
      (Or.inr rfl)⟩

/-! ## Calendar arithmetic lemmas for the pod-restart calendar -/

/-- Length of year `y`. -/
def daysInYear (y : Nat) : Nat := if isLeap y then 366 else 365

set_option maxHeartbeats 1000000 in
theorem daysBeforeYear_step (y : Nat) (hy : 1 ≤ y) :
    daysBeforeYear (y + 1) = daysBeforeYear y + daysInYear y := by
  rw [daysBeforeYear, daysBeforeYear, daysInYear]
  cases hL : isLeap y
  · rw [isLeap] at hL
    simp only [Bool.or_eq_false_iff, Bool.and_eq_false_iff, beq_eq_false_iff_ne, ne_eq,
      bne_eq_false_iff_eq] at hL
    simp only [Bool.false_eq_true, if_false]
    omega
  · rw [isLeap] at hL
    simp only [Bool.or_eq_true, Bool.and_eq_true, beq_iff_eq, bne_iff_ne, ne_eq] at hL
    rw [if_pos rfl]
    omega

theorem daysBeforeYear_mono {a b : Nat} (ha : 1 ≤ a) (hab : a ≤ b) :
    daysBeforeYear a ≤ daysBeforeYear b := by
  induction b with
  | zero => omega
  | succ b ih =>
    by_cases hb : a ≤ b
    · have h1b : 1 ≤ b := le_trans ha hb
      calc daysBeforeYear a ≤ daysBeforeYear b := ih hb
        _ ≤ daysBeforeYear (b + 1) := by rw [daysBeforeYear_step b h1b]; omega
    · have hae : a = b + 1 := by omega
      rw [hae]

theorem one_le_daysInMonth (y m : Nat) : 1 ≤ daysInMonth y m := by
  rw [daysInMonth]
  split
  · split <;> omega
  · split <;> omega

theorem daysInMonth_le_31 (y m : Nat) : daysInMonth y m ≤ 31 := by
  rw [daysInMonth]
  split
  · split <;> omega
  · split <;> omega

theorem daysBeforeMonth_step (y m : Nat) (h1 : 1 ≤ m) (h2 : m ≤ 11) :
    daysBeforeMonth y (m + 1) = daysBeforeMonth y m + daysInMonth y m := by
  interval_cases m <;> cases hL : isLeap y <;>
    simp [daysBeforeMonth, daysInMonth, hL]

theorem daysBeforeMonth_mono (y : Nat) :
    ∀ (k m : Nat), 1 ≤ m → m + k ≤ 12 → daysBeforeMonth y m ≤ daysBeforeMonth y (m + k) := by
  intro k
  induction k with
  | zero => intro m _ _; exact le_refl _
  | succ k ih =>
    intro m h1 h2
    have hmk : m + k ≤ 11 := by omega
    calc daysBeforeMonth y m ≤ daysBeforeMonth y (m + k) := ih m h1 (by omega)
      _ ≤ daysBeforeMonth y (m + k + 1) := by
          rw [daysBeforeMonth_step y (m + k) (by omega) hmk]
          omega

set_option maxHeartbeats 1000000 in
theorem dayOffset_lt_daysInYear {y m d : Nat} (h1 : 1 ≤ m) (h2 : m ≤ 12) (h3 : 1 ≤ d)
    (h4 : d ≤ daysInMonth y m) : daysBeforeMonth y m + (d - 1) < daysInYear y := by
  interval_cases m <;> cases hL : isLeap y <;>
    simp [daysBeforeMonth, daysInMonth, daysInYear, hL] at h4 ⊢ <;> omega

theorem dayOffset_lt_within {y am ad bm bd : Nat} (h1 : 1 ≤ am) (h2 : am ≤ 12)
    (h3 : 1 ≤ ad) (h4 : ad ≤ daysInMonth y am) (h5 : 1 ≤ bm) (h6 : bm ≤ 12) (h7 : 1 ≤ bd)
    (_h8 : bd ≤ daysInMonth y bm)
    (hlt : am < bm ∨ (am = bm ∧ ad < bd)) :
    daysBeforeMonth y am + (ad - 1) < daysBeforeMonth y bm + (bd - 1) := by
  rcases hlt with hm | ⟨hme, hd⟩
  · have hstep : daysBeforeMonth y (am + 1) = daysBeforeMonth y am + daysInMonth y am :=
      daysBeforeMonth_step y am h1 (by omega)
    have hmono : daysBeforeMonth y (am + 1) ≤ daysBeforeMonth y bm := by
      have := daysBeforeMonth_mono y (bm - (am + 1)) (am + 1) (by omega) (by omega)
      have heq : am + 1 + (bm - (am + 1)) = bm := by omega
      rw [heq] at this
      exact this
    omega
  · rw [hme]
    omega

theorem validDate_nextDay {d : Date} (h : validDate d) : validDate (nextDay d) := by
  obtain ⟨h1, h2, h3, h4⟩ := h
  rw [nextDay]
  split
  · next hlt =>
    refine ⟨h1, h2, ?_, ?_⟩
    · show 1 ≤ d.day + 1
      omega
    · show d.day + 1 ≤ daysInMonth d.year d.month
      omega
  · split
    · next hm =>
      refine ⟨?_, ?_, le_refl 1, one_le_daysInMonth _ _⟩
      · show 1 ≤ d.month + 1
        omega
      · show d.month + 1 ≤ 12
        omega
    · refine ⟨le_refl 1, ?_, le_refl 1, one_le_daysInMonth _ _⟩
      show (1 : Nat) ≤ 12
      omega

theorem nextDay_year_ge (d : Date) : d.year ≤ (nextDay d).year := by
  rw [nextDay]
  split
  · exact le_refl _
  · split
    · exact le_refl _
    · exact Nat.le_succ _

theorem toDayNumber_nextDay {d : Date} (h : validDate d) (hy : 1 ≤ d.year) :
    toDayNumber (nextDay d) = toDayNumber d + 1 := by
  obtain ⟨h1, h2, h3, h4⟩ := h
  rw [nextDay]
  split
  · next hlt =>
    show daysBeforeYear d.year + daysBeforeMonth d.year d.month + (d.day + 1 - 1) =
      daysBeforeYear d.year + daysBeforeMonth d.year d.month + (d.day - 1) + 1
    omega
  · next hge =>
    have hde : d.day = daysInMonth d.year d.month := by omega
    split
    · next hm =>
      show daysBeforeYear d.year + daysBeforeMonth d.year (d.month + 1) + (1 - 1) =
        daysBeforeYear d.year + daysBeforeMonth d.year d.month + (d.day - 1) + 1
      rw [daysBeforeMonth_step d.year d.month h1 (by omega)]
      omega
    · next hm =>
      have hm12 : d.month = 12 := by omega
      have hdim : daysInMonth d.year 12 = 31 := by simp [daysInMonth]
      have hde31 : d.day = 31 := by rw [hde, hm12, hdim]
      show daysBeforeYear (d.year + 1) + daysBeforeMonth (d.year + 1) 1 + (1 - 1) =
        daysBeforeYear d.year + daysBeforeMonth d.year d.month + (d.day - 1) + 1
      rw [daysBeforeYear_step d.year hy, hm12, hde31]
      have hbm1 : daysBeforeMonth (d.year + 1) 1 = 0 := by simp [daysBeforeMonth]
      have hbm12 : daysBeforeMonth d.year 12 = 334 + (if isLeap d.year then 1 else 0) := by
        simp [daysBeforeMonth]
      rw [hbm1, hbm12, daysInYear]
      cases hL : isLeap d.year <;> simp [hL]

theorem addDays_facts (d : Date) (h : validDate d) (hy : 1 ≤ d.year) (n : Nat) :
    validDate (addDays d n) ∧ 1 ≤ (addDays d n).year ∧
      toDayNumber (addDays d n) = toDayNumber d + n := by
  induction n with
  | zero => exact ⟨h, hy, rfl⟩
  | succ n ih =>
    obtain ⟨hv, hy2, ht⟩ := ih
    rw [addDays]
    refine ⟨validDate_nextDay hv, le_trans hy2 (nextDay_year_ge _), ?_⟩
    rw [toDayNumber_nextDay hv hy2, ht]
    omega

theorem toDayNumber_lt_next_year {d : Date} (h : validDate d) (hy : 1 ≤ d.year) :
    toDayNumber d < daysBeforeYear (d.year + 1) := by
  obtain ⟨h1, h2, h3, h4⟩ := h
  have hoff := dayOffset_lt_daysInYear h1 h2 h3 h4
  rw [daysBeforeYear_step d.year hy, toDayNumber]
  omega

/-! ## Date order against the formatted-string order -/

theorem toDayNumber_lt_of_year_lt {a b : Date} (hva : validDate a) (_hvb : validDate b)
    (hya : 1 ≤ a.year) (h : a.year < b.year) : toDayNumber a < toDayNumber b := by
  have h1 : toDayNumber a < daysBeforeYear (a.year + 1) := toDayNumber_lt_next_year hva hya
  have h2 : daysBeforeYear (a.year + 1) ≤ daysBeforeYear b.year :=
    daysBeforeYear_mono (by omega) (by omega)
  have h3 : daysBeforeYear b.year ≤ toDayNumber b := by
    rw [toDayNumber]
    omega
  omega

theorem toDayNumber_lt_of_dateLt {a b : Date} (hva : validDate a) (hvb : validDate b)
    (hya : 1 ≤ a.year)
    (h : a.year < b.year ∨ (a.year = b.year ∧
      (a.month < b.month ∨ (a.month = b.month ∧ a.day < b.day)))) :
    toDayNumber a < toDayNumber b := by
  obtain ⟨a1, a2, a3, a4⟩ := hva
  obtain ⟨b1, b2, b3, b4⟩ := hvb
  rcases h with hy | ⟨hye, hmd⟩
  · exact toDayNumber_lt_of_year_lt ⟨a1, a2, a3, a4⟩ ⟨b1, b2, b3, b4⟩ hya hy
  · have hb4 : b.day ≤ daysInMonth a.year b.month := by rw [hye]; exact b4
    have hoff := dayOffset_lt_within a1 a2 a3 a4 b1 b2 b3 hb4 hmd
    simp only [toDayNumber]
    rw [← hye]
    omega

theorem toDayNumber_compare {a b : Date} (hva : validDate a) (hvb : validDate b)
    (hya : 1 ≤ a.year) (hyb : 1 ≤ b.year) :
    (compare a.year b.year).then ((compare a.month b.month).then (compare a.day b.day)) =
      compare (toDayNumber a) (toDayNumber b) := by
  rcases Nat.lt_trichotomy a.year b.year with hy | hy | hy
  · rw [Nat.compare_eq_lt.mpr hy,
      Nat.compare_eq_lt.mpr (toDayNumber_lt_of_dateLt hva hvb hya (Or.inl hy))]
    rfl
  · rw [hy, Nat.compare_eq_eq.mpr rfl]
    rcases Nat.lt_trichotomy a.month b.month with hm | hm | hm
    · rw [Nat.compare_eq_lt.mpr hm,
        Nat.compare_eq_lt.mpr (toDayNumber_lt_of_dateLt hva hvb hya (Or.inr ⟨hy, Or.inl hm⟩))]
      rfl
    · rw [hm, Nat.compare_eq_eq.mpr rfl]
      rcases Nat.lt_trichotomy a.day b.day with hd | hd | hd
      · rw [Nat.compare_eq_lt.mpr hd, Nat.compare_eq_lt.mpr
          (toDayNumber_lt_of_dateLt hva hvb hya (Or.inr ⟨hy, Or.inr ⟨hm, hd⟩⟩))]
        rfl
      · have hdn : toDayNumber a = toDayNumber b := by
          simp only [toDayNumber, hy, hm, hd]
        rw [hd, Nat.compare_eq_eq.mpr rfl, Nat.compare_eq_eq.mpr hdn]
        rfl
      · rw [Nat.compare_eq_gt.mpr hd, Nat.compare_eq_gt.mpr
          (toDayNumber_lt_of_dateLt hvb hva hyb (Or.inr ⟨hy.symm, Or.inr ⟨hm.symm, hd⟩⟩))]
        rfl
    · rw [Nat.compare_eq_gt.mpr hm, Nat.compare_eq_gt.mpr
        (toDayNumber_lt_of_dateLt hvb hva hyb (Or.inr ⟨hy.symm, Or.inl hm⟩))]
      rfl
  · rw [Nat.compare_eq_gt.mpr hy,
      Nat.compare_eq_gt.mpr (toDayNumber_lt_of_dateLt hvb hva hyb (Or.inl hy))]
    rfl

theorem padNum_length (k n : Nat) : (padNum k n).length = k := by
  induction k generalizing n with
  | zero => rfl
  | succ k ih => simp [padNum, ih]

theorem digitChar_toNat {k : Nat} (h : k < 10) : (digitChar k).val.toNat = 48 + k := by
  interval_cases k <;> decide

theorem charsCmp_cons_same (c : Char) (as bs : List Char) :
    charsCmp (c :: as) (c :: bs) = charsCmp as bs := by
  rw [charsCmp]
  rw [if_neg (by omega), if_neg (by omega)]

theorem charsCmp_append {xs ys as bs : List Char} (h : xs.length = ys.length) :
    charsCmp (xs ++ as) (ys ++ bs) = (charsCmp xs ys).then (charsCmp as bs) := by
  induction xs generalizing ys with
  | nil =>
    rcases ys with _ | ⟨y, ys⟩
    · rfl
    · simp at h
  | cons x xs ih =>
    rcases ys with _ | ⟨y, ys⟩
    · simp at h
    · simp only [List.length_cons, Nat.add_right_cancel_iff] at h
      simp only [List.cons_append]
      rw [charsCmp, charsCmp]
      by_cases h1 : x.val.toNat < y.val.toNat
      · rw [if_pos h1, if_pos h1]
        rfl
      · rw [if_neg h1, if_neg h1]
        by_cases h2 : y.val.toNat < x.val.toNat
        · rw [if_pos h2, if_pos h2]
          rfl
        · rw [if_neg h2, if_neg h2]
          exact ih h

theorem charsCmp_eq_iff (l1 l2 : List Char) : charsCmp l1 l2 = .eq ↔ l1 = l2 := by
  induction l1 generalizing l2 with
  | nil =>
    rcases l2 with _ | ⟨b, bs⟩
    · simp [charsCmp]
    · simp [charsCmp]
  | cons a as ih =>
    rcases l2 with _ | ⟨b, bs⟩
    · simp [charsCmp]
    · rw [charsCmp]
      by_cases h1 : a.val.toNat < b.val.toNat
      · rw [if_pos h1]
        constructor
        · intro habs; cases habs
        · intro heq
          injection heq with heq1 _
          rw [heq1] at h1
          omega
      · rw [if_neg h1]
        by_cases h2 : b.val.toNat < a.val.toNat
        · rw [if_pos h2]
          constructor
          · intro habs; cases habs
          · intro heq
            injection heq with heq1 _
            rw [heq1] at h2
            omega
        · rw [if_neg h2]
          have hab : a = b := Char.ext (UInt32.ext (by omega))
          rw [ih bs, hab]
          simp

theorem padNum_cmp {k a b : Nat} (ha : a < 10 ^ k) (hb : b < 10 ^ k) :
    charsCmp (padNum k a) (padNum k b) = compare a b := by
  induction k generalizing a b with
  | zero =>
    have ha0 : a = 0 := by simpa using ha
    have hb0 : b = 0 := by simpa using hb
    subst ha0; subst hb0
    rfl
  | succ k ih =>
    have hda : a / 10 ^ k < 10 := by
      rw [Nat.div_lt_iff_lt_mul (Nat.pos_pow_of_pos k (by norm_num))]
      calc a < 10 ^ (k + 1) := ha
        _ = 10 * 10 ^ k := by ring
        _ ≤ 10 * 10 ^ k := le_refl _
    have hdb : b / 10 ^ k < 10 := by
      rw [Nat.div_lt_iff_lt_mul (Nat.pos_pow_of_pos k (by norm_num))]
      calc b < 10 ^ (k + 1) := hb
        _ = 10 * 10 ^ k := by ring
        _ ≤ 10 * 10 ^ k := le_refl _
    rw [padNum, padNum, charsCmp]
    rcases Nat.lt_trichotomy (a / 10 ^ k) (b / 10 ^ k) with hd | hd | hd
    · rw [if_pos (by rw [digitChar_toNat hda, digitChar_toNat hdb]; omega)]
      have hab : a < b := Nat.lt_of_div_lt_div hd
      rw [Nat.compare_eq_lt.mpr hab]
    · rw [if_neg (by rw [digitChar_toNat hda, digitChar_toNat hdb]; omega),
        if_neg (by rw [digitChar_toNat hda, digitChar_toNat hdb]; omega)]
      have hma : a % 10 ^ k < 10 ^ k := Nat.mod_lt _ (Nat.pos_pow_of_pos k (by norm_num))
      have hmb : b % 10 ^ k < 10 ^ k := Nat.mod_lt _ (Nat.pos_pow_of_pos k (by norm_num))
      rw [ih hma hmb]
      have hsplit_a := Nat.div_add_mod a (10 ^ k)
      have hsplit_b := Nat.div_add_mod b (10 ^ k)
      rcases Nat.lt_trichotomy (a % 10 ^ k) (b % 10 ^ k) with hm | hm | hm
      · rw [Nat.compare_eq_lt.mpr hm, Nat.compare_eq_lt.mpr ?_]
        have : (10 : Nat) ^ k * (a / 10 ^ k) = 10 ^ k * (b / 10 ^ k) := by rw [hd]
        omega
      · rw [hm, Nat.compare_eq_eq.mpr rfl, Nat.compare_eq_eq.mpr ?_]
        have : (10 : Nat) ^ k * (a / 10 ^ k) = 10 ^ k * (b / 10 ^ k) := by rw [hd]
        omega
      · rw [Nat.compare_eq_gt.mpr hm, Nat.compare_eq_gt.mpr ?_]
        have : (10 : Nat) ^ k * (a / 10 ^ k) = 10 ^ k * (b / 10 ^ k) := by rw [hd]
        omega
    · rw [if_neg (by rw [digitChar_toNat hda, digitChar_toNat hdb]; omega),
        if_pos (by rw [digitChar_toNat hda, digitChar_toNat hdb]; omega)]
      have hab : b < a := Nat.lt_of_div_lt_div hd
      rw [Nat.compare_eq_gt.mpr hab]

theorem ordThen_assoc (x y z : Ordering) : (x.then y).then z = x.then (y.then z) := by
  cases x <;> cases y <;> rfl

theorem dateStr_cmp (a b : Date) (ha4 : a.year < 10000) (hb4 : b.year < 10000)
    (haM : a.month < 100) (haD : a.day < 100) (hbM : b.month < 100) (hbD : b.day < 100) :
    charsCmp (dateStr a).data (dateStr b).data =
      (compare a.year b.year).then ((compare a.month b.month).then (compare a.day b.day)) := by
  rw [dateStr, dateStr, data_mk, data_mk]
  rw [charsCmp_append (by simp [padNum_length])]
  rw [charsCmp_append (by simp [padNum_length])]
  rw [charsCmp_cons_same, charsCmp_cons_same]
  rw [padNum_cmp (by simpa using ha4) (by simpa using hb4)]
  rw [padNum_cmp (by simpa using haM) (by simpa using hbM)]
  rw [padNum_cmp (by simpa using haD) (by simpa using hbD)]
  rw [ordThen_assoc]

/-- Bounds package: a valid date with a four-digit year. -/
def dateInRange (d : Date) : Prop := validDate d ∧ 1 ≤ d.year ∧ d.year < 10000

instance (d : Date) : Decidable (dateInRange d) := by unfold dateInRange; infer_instance

theorem dateStr_cmp_dayNumber {a b : Date} (ha : dateInRange a) (hb : dateInRange b) :
    charsCmp (dateStr a).data (dateStr b).data = compare (toDayNumber a) (toDayNumber b) := by
  obtain ⟨hva, hya, ha4⟩ := ha
  obtain ⟨hvb, hyb, hb4⟩ := hb
  rw [dateStr_cmp a b ha4 hb4
      (by have := hva.2.1; omega)
      (by have := hva.2.2.2; have := daysInMonth_le_31 a.year a.month; omega)
      (by have := hvb.2.1; omega)
      (by have := hvb.2.2.2; have := daysInMonth_le_31 b.year b.month; omega)]
  exact toDayNumber_compare hva hvb hya hyb

theorem goStrLe_dateStr {a b : Date} (ha : dateInRange a) (hb : dateInRange b) :
    goStrLe (dateStr a) (dateStr b) = true ↔ toDayNumber a ≤ toDayNumber b := by
  rw [goStrLe, dateStr_cmp_dayNumber ha hb]
  rcases Nat.lt_trichotomy (toDayNumber a) (toDayNumber b) with h | h | h
  · rw [Nat.compare_eq_lt.mpr h]
    simp
    omega
  · rw [h, Nat.compare_eq_eq.mpr rfl]
    simp
  · rw [Nat.compare_eq_gt.mpr h]
    simp
    omega

theorem dateStr_eq_iff {a b : Date} (ha : dateInRange a) (hb : dateInRange b) :
    (dateStr a == dateStr b) = true ↔ toDayNumber a = toDayNumber b := by
  rw [beq_iff_eq]
  constructor
  · intro h
    have h2 : charsCmp (dateStr a).data (dateStr b).data = .eq :=
      (charsCmp_eq_iff _ _).mpr (congrArg String.data h)
    rw [dateStr_cmp_dayNumber ha hb] at h2
    exact Nat.compare_eq_eq.mp h2
  · intro h
    have h2 : compare (toDayNumber a) (toDayNumber b) = .eq := Nat.compare_eq_eq.mpr h
    rw [← dateStr_cmp_dayNumber ha hb] at h2
    exact strEq_of_data ((charsCmp_eq_iff _ _).mp h2)

/-! ## Claims C4 and C5 — the monthly pod-restart histogram -/

theorem rangeDateList_addDays (s : Date) (hs : validDate s) (hy : 1 ≤ s.year) (n : Nat) :
    rangeDateList s (addDays s n) = (List.range (n + 1)).map (addDays s) := by
  rw [rangeDateList]
  have h := (addDays_facts s hs hy n).2.2
  rw [if_neg (by omega)]
  rw [h]
  have : toDayNumber s + n - toDayNumber s + 1 = n + 1 := by omega
  rw [this]

theorem daysBeforeMonth_add30_lt (y m : Nat) (h1 : 1 ≤ m) (h2 : m ≤ 12) :
    daysBeforeMonth y m + 30 < daysInYear y := by
  interval_cases m <;> cases hL : isLeap y <;>
    simp [daysBeforeMonth, daysInYear, hL]

theorem bucketInRange (year month : Nat) (hm1 : 1 ≤ month) (hm2 : month ≤ 12)
    (hy1 : 1 ≤ year) (hy2 : year < 10000) (i : Nat) (hi : i ≤ 30) :
    dateInRange (addDays ⟨year, month, 1⟩ i) := by
  have hsv : validDate ⟨year, month, 1⟩ := ⟨hm1, hm2, le_refl 1, one_le_daysInMonth _ _⟩
  obtain ⟨hv, hyb, ht⟩ := addDays_facts ⟨year, month, 1⟩ hsv hy1 i
  refine ⟨hv, hyb, ?_⟩
  by_contra hge
  push_neg at hge
  have h1 : daysBeforeYear (year + 1) ≤ daysBeforeYear (addDays ⟨year, month, 1⟩ i).year :=
    daysBeforeYear_mono (by omega) (by omega)
  have h2 : daysBeforeYear (addDays ⟨year, month, 1⟩ i).year ≤
      toDayNumber (addDays ⟨year, month, 1⟩ i) := by
    rw [toDayNumber]
    omega
  have h4 : toDayNumber (⟨year, month, 1⟩ : Date) + 30 < daysBeforeYear (year + 1) := by
    have hoff := daysBeforeMonth_add30_lt year month hm1 hm2
    rw [daysBeforeYear_step year hy1]
    simp only [toDayNumber]
    omega
  omega

/-- C4.  For a valid request that passes the future-month validation, the
pod-restart calendar has exactly 31 daily buckets, running from the first of
the month through 30 days later inclusive; bucket `i`'s x-axis entry is the
decimal Unix timestamp of that day's UTC midnight, its count cell is the
empty string when the day lies strictly after "today", and otherwise the
decimal count of alerts created on exactly that day. -/
theorem claimC4_prop (year month : Nat) (nowDate : Date) (alerts : List Date)
    (hm1 : 1 ≤ month) (hm2 : month ≤ 12) (hy1 : 1 ≤ year) (hy2 : year < 10000)
    (hnow : dateInRange nowDate)
    (halerts : ∀ a ∈ alerts, dateInRange a)
    (hvalid : ¬ nowDate.year < year ∧ ¬ (nowDate.year = year ∧ nowDate.month < month)) :
    ∃ xs ys, buildPodCalendar year month nowDate alerts = .ok (xs, ys) ∧
      xs.length = 31 ∧ ys.length = 31 ∧
      ∀ i : Nat, i < 31 →
        xs[i]? = some (intStr (86400 *
          ((toDayNumber ⟨year, month, 1⟩ : Int) + (i : Int) - epochDay))) ∧
        ys[i]? = some (
          if toDayNumber ⟨year, month, 1⟩ + i ≤ toDayNumber nowDate then
            natStr ((alerts.filter
              (fun a => toDayNumber a == toDayNumber ⟨year, month, 1⟩ + i)).length)
          else "") := by
  have hsv : validDate ⟨year, month, 1⟩ := ⟨hm1, hm2, le_refl 1, one_le_daysInMonth _ _⟩
  have hdays : rangeDateList ⟨year, month, 1⟩ (addDays ⟨year, month, 1⟩ 30) =
      (List.range 31).map (addDays ⟨year, month, 1⟩) :=
    rangeDateList_addDays ⟨year, month, 1⟩ hsv hy1 30
  refine ⟨(rangeDateList ⟨year, month, 1⟩ (addDays ⟨year, month, 1⟩ 30)).map
      (fun d => intStr (unixMidnight d)),
    (rangeDateList ⟨year, month, 1⟩ (addDays ⟨year, month, 1⟩ 30)).map
      (calendarCell nowDate alerts), ?_, ?_, ?_, ?_⟩
  · rw [buildPodCalendar, if_neg hvalid.1, if_neg hvalid.2]
  · rw [hdays]
    simp
  · rw [hdays]
    simp
  · intro i hi
    have hbucket : dateInRange (addDays ⟨year, month, 1⟩ i) :=
      bucketInRange year month hm1 hm2 hy1 hy2 i (by omega)
    have htdn : toDayNumber (addDays ⟨year, month, 1⟩ i) =
        toDayNumber ⟨year, month, 1⟩ + i :=
      (addDays_facts ⟨year, month, 1⟩ hsv hy1 i).2.2
    constructor
    · rw [hdays, List.getElem?_map, List.getElem?_map, List.getElem?_range hi]
      rw [Option.map_some', Option.map_some']
      congr 1
      rw [unixMidnight, htdn]
      congr 1
    · rw [hdays, List.getElem?_map, List.getElem?_map, List.getElem?_range hi]
      rw [Option.map_some', Option.map_some']
      congr 1
      have hfil : alerts.filter
            (fun a => dateStr a == dateStr (addDays ⟨year, month, 1⟩ i)) =
          alerts.filter
            (fun a => toDayNumber a == toDayNumber ⟨year, month, 1⟩ + i) := by
        apply List.filter_congr
        intro a ha
        have hadr := halerts a ha
        rw [Bool.eq_iff_iff, dateStr_eq_iff hadr hbucket, beq_iff_eq, htdn]
      have hcond : (goStrLe (dateStr (addDays ⟨year, month, 1⟩ i)) (dateStr nowDate) = true) ↔
          toDayNumber ⟨year, month, 1⟩ + i ≤ toDayNumber nowDate := by
        rw [goStrLe_dateStr hbucket hnow, htdn]
      simp only [calendarCell]
      exact if_congr hcond (congrArg natStr (congrArg List.length hfil)) rfl

/-- C4, witness at May 2023 with "today" = 2023-05-10 and three alerts. -/
theorem claimC4_witness :
    dateInRange ⟨2023, 5, 10⟩ ∧
      (∃ xs ys, buildPodCalendar 2023 5 ⟨2023, 5, 10⟩ [⟨2023, 5, 3⟩, ⟨2023, 5, 3⟩, ⟨2023, 6, 2⟩] =
          .ok (xs, ys) ∧
        xs.length = 31 ∧ ys.length = 31 ∧
        ∀ i : Nat, i < 31 →
          xs[i]? = some (intStr (86400 *
            ((toDayNumber ⟨2023, 5, 1⟩ : Int) + (i : Int) - epochDay))) ∧
          ys[i]? = some (
            if toDayNumber ⟨2023, 5, 1⟩ + i ≤ toDayNumber ⟨2023, 5, 10⟩ then
              natStr (([⟨2023, 5, 3⟩, ⟨2023, 5, 3⟩, ⟨2023, 6, 2⟩].filter
                (fun a => toDayNumber a == toDayNumber ⟨2023, 5, 1⟩ + i)).length)
            else "")) :=
  ⟨by decide,
    claimC4_prop 2023 5 ⟨2023, 5, 10⟩ [⟨2023, 5, 3⟩, ⟨2023, 5, 3⟩, ⟨2023, 6, 2⟩]
      (by decide) (by decide) (by decide) (by decide) (by decide) (by decide)
      ⟨by decide, by decide⟩⟩

/-- C5.  The calendar chart fails whenever the requested year exceeds the
current year, or the requested year is the current year and the requested
month exceeds the current month. -/
theorem claimC5_prop (year month : Nat) (nowDate : Date) (alerts : List Date)
    (h : nowDate.year < year ∨ (nowDate.year = year ∧ nowDate.month < month)) :
    ∃ e, buildPodCalendar year month nowDate alerts = .error e := by
  rcases h with h | ⟨h1, h2⟩
  · exact ⟨"Invalid year", by rw [buildPodCalendar, if_pos h]⟩
  · refine ⟨"Invalid month", ?_⟩
    rw [buildPodCalendar, if_neg (by omega), if_pos ⟨h1, h2⟩]

/-- C5, witness: requesting the month after "today's" month fails. -/
theorem claimC5_witness :
    ((⟨2023, 5, 10⟩ : Date).year = 2023 ∧ (⟨2023, 5, 10⟩ : Date).month < 6) ∧
      ∃ e, buildPodCalendar 2023 6 ⟨2023, 5, 10⟩ [] = .error e :=
  ⟨⟨rfl, by decide⟩, claimC5_prop 2023 6 ⟨2023, 5, 10⟩ [] (Or.inr ⟨rfl, by decide⟩)⟩

end Tks